import Mathlib

/-!
# Contextual tag propagation of `github.com/ShawnMilo/logger`

A shallow embedding of `logger.go` and of the `context` values it builds,
followed by the properties of tag attachment (`With`), reconstruction
(`FromContext`), lookup (`ValueString`) and emission (`Debug`, `Info`, `Error`).

Modelling conventions
* A Go `map[tag]interface{}` is an association list without duplicate keys
  (`AList`). Two maps are the same Go map value when every key looks up to the
  same result in both; the order of the entries carries no meaning.
* The order in which `for k, v := range m` visits a map is not specified by
  Go. Every call of `With` therefore takes a `RangeOrder`: any function that
  lists the entries of a map in some order, each entry once.
* A `context.Context` is the chain of `valueCtx` nodes above
  `context.Background()`. A `Context` is a non-nil context and a `Logger` is a
  logger whose map is allocated, as every logger returned by `New` and
  `FromContext` is; `Logger.With` is the method on these. The values that Go
  admits beyond them, the zero value `Logger{}` with its nil map and the nil
  context, are covered by `LoggerValue.With`, which panics where the Go
  method panics.
* Stateful code passes its state explicitly: `With` returns the logger after
  the call next to the context; the emitting methods transform a `World`
  (the `DEBUG` flag and what has been written to standard output).
-/

namespace logger

/-! ## Data model -/

/-- Tag names: `type tag string`. -/
abbrev tag := String

/-- Values of Go type `interface{}` as far as the logger meets them: the nil
interface, strings, integers, booleans and the `[]tag` slice that `With`
stores under `tagsKey`. -/
inductive Any where
  | nil
  | string (s : String)
  | int (i : Int)
  | bool (b : Bool)
  | tags (ts : List tag)
  deriving DecidableEq, Repr

/-- Context keys. Go compares keys as interface values, so a key is its
dynamic type together with its value: a plain `string`, a `logger.tag`, a
`logger.internal`, or a value of some other comparable type of the
application (its type name and a rendering of its value). -/
inductive Key where
  | str (s : String)
  | tag (t : tag)
  | internal (s : String)
  | other (type : String) (repr : String)
  deriving DecidableEq, Repr

/-- The reserved key `const tagsKey = internal("tags")`. -/
def tagsKey : Key := Key.internal "tags"

/-- A `context.Context`: `context.Background()` or a `valueCtx` node made by
`context.WithValue`. -/
inductive Context where
  | background
  | valueCtx (parent : Context) (key : Key) (val : Any)
  deriving DecidableEq, Repr

/-- The call `context.WithValue(parent, key, val)`. -/
def WithValue (parent : Context) (key : Key) (val : Any) : Context :=
  Context.valueCtx parent key val

/-- The method `ctx.Value(key)`: the value of the nearest node whose key equals
`key`, and the nil interface when the walk reaches the background context. -/
def Context.Value : Context → Key → Any
  | Context.background, _ => Any.nil
  | Context.valueCtx parent k v, key => if k = key then v else parent.Value key

/-- Number of nodes that `ctx.Value(key)` passes over before it reaches the node
that answers; `none` when no node binds `key`. -/
def Context.hops : Context → Key → Option Nat
  | Context.background, _ => none
  | Context.valueCtx parent k _, key =>
    if k = key then some 0 else (parent.hops key).map Nat.succ

/-- The ancestor of a context `n` nodes up the chain of parents. -/
def Context.up : Nat → Context → Context
  | 0, ctx => ctx
  | _ + 1, Context.background => Context.background
  | n + 1, Context.valueCtx parent _ _ => Context.up n parent

/-- The map type `type tagList map[tag]interface{}`. -/
abbrev tagList := AList (fun _ : tag => Any)

/-- The struct `type Logger struct { tags tagList }` with an allocated map, as
`New` and `FromContext` return it. -/
structure Logger where
  tags : tagList

/-- A value of the exported struct type `Logger` as any Go code can hold it: the
field `tags` is an allocated map (`some`), or the nil map of the zero value
`Logger{}` (`none`). -/
structure LoggerValue where
  tags : Option tagList

/-- One traversal `for k, v := range m` of a Go map: the entries of the map,
each exactly once, in an order the language leaves open. -/
def RangeOrder : Type :=
  { f : tagList → List (Sigma fun _ : tag => Any) // ∀ m, (f m).Perm m.entries }

/-- The traversal that visits the entries in the order the model stores them. -/
def RangeOrder.stored : RangeOrder := ⟨fun m => m.entries, fun _ => List.Perm.refl _⟩

/-- The traversal that visits the entries in the opposite order. -/
def RangeOrder.reversed : RangeOrder :=
  ⟨fun m => m.entries.reverse, fun m => List.reverse_perm m.entries⟩

/-! ## Construction, attachment, reconstruction, lookup -/

/-- The constructor `New()`: a logger with a freshly made, empty map. -/
def New : Logger := { tags := ∅ }

/-- The body of the loop of `With`: `tags = append(tags, k)` and
`ctx = context.WithValue(ctx, k, v)`, where `k` has type `tag`. -/
def withStep (acc : List tag × Context) (kv : Sigma fun _ : tag => Any) :
    List tag × Context :=
  (acc.1 ++ [kv.1], WithValue acc.2 (Key.tag kv.1) kv.2)

/-- The method `(l *Logger) With(ctx, k, v)` on a logger whose map is allocated
and on a non-nil context. It returns the logger after the assignment
`l.tags[tag(k)] = v` and the context that the Go method returns. -/
def Logger.With (range : RangeOrder) (l : Logger) (ctx : Context) (k : String) (v : Any) :
    Logger × Context :=
  let l1 : Logger := { tags := l.tags.insert k v }
  let ctx1 := WithValue ctx (Key.str k) v
  let r := (range.1 l1.tags).foldl withStep ([], ctx1)
  (l1, WithValue r.2 tagsKey (Any.tags r.1))

/-- The zero value `Logger{}`, which any importer of the package can declare
with `var l logger.Logger`. -/
def LoggerValue.zero : LoggerValue := { tags := none }

/-- A logger with an allocated map, as a value of the struct type. -/
def Logger.toValue (l : Logger) : LoggerValue := { tags := some l.tags }

/-- The method `(l *Logger) With(ctx, k, v)` on every value of the struct type
and every context, the nil context (`none`) included. The assignment
`l.tags[tag(k)] = v` at line 91 panics on a nil map, and
`context.WithValue(ctx, k, v)` at line 92 panics on a nil parent; the text of
the panic is the error. Otherwise the call runs as `Logger.With`. -/
def LoggerValue.With (range : RangeOrder) (l : LoggerValue) (ctx : Option Context) (k : String)
    (v : Any) : Except String (LoggerValue × Context) :=
  match l.tags with
  | none => Except.error "assignment to entry in nil map"
  | some m =>
    match ctx with
    | none => Except.error "cannot create context from nil parent"
    | some c =>
      Except.ok (( Logger.With range { tags := m } c k v).1.toValue,
        ( Logger.With range { tags := m } c k v).2)

/-- The function `FromContext(ctx)`. The type assertion
`ctx.Value(tagsKey).([]tag)` succeeds exactly on an `Any.tags` value. -/
def FromContext (ctx : Context) : Logger :=
  let log := New
  match ctx.Value tagsKey with
  | Any.tags tags =>
    tags.foldl (fun (log : Logger) t => { tags := log.tags.insert t (ctx.Value (Key.tag t)) }) log
  | _ => log

/-- The call `fmt.Sprintf("%s", v)`: a string is printed as it is, a slice of
tags as its elements in brackets, and an operand the verb does not apply to
as the marker that `fmt` writes for a bad verb. -/
def Sprintf_s : Any → String
  | Any.nil => "%!s(<nil>)"
  | Any.string s => s
  | Any.int i => "%!s(int=" ++ toString i ++ ")"
  | Any.bool b => "%!s(bool=" ++ toString b ++ ")"
  | Any.tags ts => "[" ++ " ".intercalate ts ++ "]"

/-- The method `(l *Logger) ValueString(key)`. -/
def Logger.ValueString (l : Logger) (key : String) : String :=
  match l.tags.lookup key with
  | none => ""
  | some v => Sprintf_s v

/-! ## Loggers behind pointers

`New` and `FromContext` return a `*Logger`; `With` writes through its
receiver. A `Heap` lists the allocated loggers, and a pointer is an index. -/

/-- The allocated `Logger` objects. -/
abbrev Heap := List Logger

/-- Allocation done by `New()`: the heap afterwards and the new pointer. -/
def Heap.New (h : Heap) : Heap × Nat := (h ++ [logger.New], h.length)

/-- Allocation done by `FromContext(ctx)`: the heap afterwards and the new pointer. -/
def Heap.FromContext (h : Heap) (ctx : Context) : Heap × Nat :=
  (h ++ [logger.FromContext ctx], h.length)

/-- The call `p.With(ctx, k, v)` on the logger that `p` points to; `none` when
`p` points to no allocated logger. -/
def Heap.With (range : RangeOrder) (h : Heap) (p : Nat) (ctx : Context) (k : String) (v : Any) :
    Option (Heap × Context) :=
  match h[p]? with
  | none => none
  | some l => some (h.set p (l.With range ctx k v).1, (l.With range ctx k v).2)

/-- The call `p.ValueString(key)` on the logger that `p` points to. -/
def Heap.ValueString (h : Heap) (p : Nat) (key : String) : Option String :=
  (h[p]?).map (fun l => l.ValueString key)

/-! ## Chains of attachments -/

/-- One call `l.With(ctx, k, v)` of a chain: the logger as it is when the call
is made, the traversal order its loop takes, the key and the value. -/
structure Attach where
  l : Logger
  range : RangeOrder
  k : String
  v : Any

/-- The context at the end of a chain that starts at `ctx`: every call receives
the context that the call before it returned. -/
def chain (ctx : Context) : List Attach → Context
  | [] => ctx
  | s :: rest => chain (s.l.With s.range ctx s.k s.v).2 rest

/-- The value most recently attached under `t` by a list of calls, `none` when
no call attached `t`. -/
def lastAttach (steps : List Attach) (t : tag) : Option Any :=
  (steps.reverse.find? (fun s => decide (s.k = t))).map (fun s => s.v)

/-- The tag store of `a` and the tag store of `b` are the same map: every key
is bound in both to the same value, or in neither. -/
def sameTags (a b : Logger) : Prop := ∀ t : tag, a.tags.lookup t = b.tags.lookup t

/-- The path property of a chain: at every node `j`, the reconstructed logger
binds exactly the keys attached by the first `j` calls, each to the value of
its most recent attachment. -/
def PathTags (ctx0 : Context) (steps : List Attach) : Prop :=
  ∀ j, j ≤ steps.length →
    (∀ t : tag, t ∈ (FromContext (chain ctx0 (steps.take j))).tags.keys ↔
      t ∈ (steps.take j).map (fun s => s.k)) ∧
    (∀ t : tag, (FromContext (chain ctx0 (steps.take j))).tags.lookup t =
      lastAttach (steps.take j) t)

/-- Every call of the chain is made by a logger whose store holds, at that
moment, the tags that the context it receives carries. -/
def InStep (ctx0 : Context) (steps : List Attach) : Prop :=
  ∀ i (hi : i < steps.length),
    sameTags (steps.get ⟨i, hi⟩).l (FromContext (chain ctx0 (steps.take i)))

/-! ## Emission -/

/-- The fields of a `runtime.Frame` that `stack` reads. -/
structure Frame where
  Function : String
  File : String
  Line : Nat
  deriving DecidableEq, Repr

/-- The struct `type message struct`. -/
structure message where
  Level : String
  EventTime : String
  Message : String
  Trace : String
  Tags : tagList

/-- Index of the last occurrence of the character `c` at or after position `i`,
`last` when there is none. -/
def LastIndexFrom (c : Char) : List Char → Nat → Int → Int
  | [], _, last => last
  | x :: xs, i, last => LastIndexFrom c xs (i + 1) (if x = c then (i : Int) else last)

/-- The call `strings.LastIndex(s, "/")` for a one-character separator, counted
in characters: `-1` when the separator does not occur. -/
def LastIndex (s : String) (c : Char) : Int := LastIndexFrom c s.data 0 (-1)

/-- The call `strings.Contains(s, substr)`. -/
def Contains (s substr : String) : Bool := decide (List.IsInfix substr.data s.data)

/-- The function `stripPathPrefix`. The slice `s[i+1:]` starts right after the
separator, so it is the same string whether `i` counts bytes or characters. -/
def stripPathPrefix (s : String) : String :=
  let i := LastIndex s '/'
  if i > 0 then String.mk (s.data.drop (i.toNat + 1)) else s

/-- The string `fmt.Sprintf("%s:%s:%d", ...)` that `stack` builds for a frame. -/
def framePath (frame : Frame) : String :=
  stripPathPrefix frame.File ++ ":" ++ stripPathPrefix frame.Function ++ ":" ++ toString frame.Line

/-- The two tests at the top of the loop of `stack` that leave the loop. -/
def stopFrame (frame : Frame) : Bool :=
  decide (frame.Function = "main.index") || Contains frame.File "asm_amd64.s"

/-- The loop of `stack` over the frames that `runtime.CallersFrames` yields:
`names` after the loop. `frames.Next()` on no frames yields the zero `Frame`
and `more = false`; on the last frame it yields `more = false`. -/
def stackNames : List Frame → List String
  | [] =>
    let frame : Frame := { Function := "", File := "", Line := 0 }
    if stopFrame frame then [] else [framePath frame]
  | [frame] => if stopFrame frame then [] else [framePath frame]
  | frame :: next :: rest =>
    if stopFrame frame then [] else framePath frame :: stackNames (next :: rest)

/-- What the host gives to one call of an emitting method. -/
structure Runtime where
  /-- Result of `json.Marshal(&msg)`: the bytes, or the text of the error. -/
  Marshal : message → Except String String
  /-- Result of `time.Now().UTC().Format(time.RFC3339)`. -/
  now : String
  /-- Result of `fmt.Sprintf(message, args...)`. -/
  Sprintf : String → List Any → String
  /-- Path of `logger.go` recorded by the compiler. -/
  file : String
  /-- Frame of `runtime.Callers` itself. -/
  callers : Frame

/-- Frame of a function of this package that is calling at line `line`. -/
def ownFrame (rt : Runtime) (fn : String) (line : Nat) : Frame :=
  { Function := "github.com/ShawnMilo/logger." ++ fn, File := rt.file, Line := line }

/-- The function `stack()`, called with the active frames `stk` of its caller
(innermost first). `runtime.Callers(4, pc)` skips four frames, counting the
frame of `Callers` itself as the first, and fills at most `len(pc) = 100`. -/
def stack (rt : Runtime) (stk : List Frame) : String :=
  let active := rt.callers :: ownFrame rt "stack" 68 :: stk
  let frames := (active.drop 4).take 100
  ", ".intercalate (stackNames frames)

/-- The process state the emitting methods act on: the package variable `DEBUG`
and the writes made to `os.Stdout`, oldest first. -/
structure World where
  DEBUG : Bool
  stdout : List String
  deriving DecidableEq, Repr

/-- The function `SetDebug(val)`. -/
def SetDebug (val : Bool) (w : World) : World := { w with DEBUG := val }

/-- The method `(l *Logger) log(level, text)`, called with the active frames
`stk` of its caller. -/
def Logger.log (rt : Runtime) (stk : List Frame) (l : Logger) (level text : String)
    (w : World) : World :=
  let msg : message :=
    { Level := level, EventTime := rt.now, Message := text, Trace := "", Tags := l.tags }
  let msg : message :=
    if level = "ERROR" then
      { msg with Trace := stack rt (ownFrame rt "(*Logger).log" 134 :: stk) }
    else msg
  match rt.Marshal msg with
  | Except.error err =>
    { w with stdout := w.stdout ++ ["logger ERROR: cannot marshal payload: " ++ err] }
  | Except.ok b => { w with stdout := w.stdout ++ [b ++ "\n"] }

/-- The method `(l Logger) Debug(message)`. -/
def Logger.Debug (rt : Runtime) (stk : List Frame) (l : Logger) (message : String)
    (w : World) : World :=
  if !w.DEBUG then w
  else l.log rt (ownFrame rt "Logger.Debug" 151 :: stk) "DEBUG" message w

/-- The method `(l Logger) Debugf(message, args...)`. -/
def Logger.Debugf (rt : Runtime) (stk : List Frame) (l : Logger) (message : String)
    (args : List Any) (w : World) : World :=
  l.Debug rt (ownFrame rt "Logger.Debugf" 156 :: stk) (rt.Sprintf message args) w

/-- The method `(l Logger) Info(message)`. -/
def Logger.Info (rt : Runtime) (stk : List Frame) (l : Logger) (message : String)
    (w : World) : World :=
  l.log rt (ownFrame rt "Logger.Info" 161 :: stk) "INFO" message w

/-- The method `(l Logger) Infof(message, args...)`. -/
def Logger.Infof (rt : Runtime) (stk : List Frame) (l : Logger) (message : String)
    (args : List Any) (w : World) : World :=
  l.Info rt (ownFrame rt "Logger.Infof" 166 :: stk) (rt.Sprintf message args) w

/-- The method `(l Logger) Error(message)`. -/
def Logger.Error (rt : Runtime) (stk : List Frame) (l : Logger) (message : String)
    (w : World) : World :=
  l.log rt (ownFrame rt "Logger.Error" 171 :: stk) "ERROR" message w

/-- The method `(l Logger) Errorf(message, args...)`. -/
def Logger.Errorf (rt : Runtime) (stk : List Frame) (l : Logger) (message : String)
    (args : List Any) (w : World) : World :=
  l.Error rt (ownFrame rt "Logger.Errorf" 176 :: stk) (rt.Sprintf message args) w


/-- The line that `log` writes for the record `msg`: the serialized record and
a newline, or the fallback text when serialization fails. -/
def written (rt : Runtime) (msg : message) : String :=
  match rt.Marshal msg with
  | Except.error err => "logger ERROR: cannot marshal payload: " ++ err
  | Except.ok b => b ++ "\n"

/-- The record that `log` builds for a level other than `ERROR`. -/
def record (rt : Runtime) (l : Logger) (level text : String) : message :=
  { Level := level, EventTime := rt.now, Message := text, Trace := "", Tags := l.tags }

/-! ## Auxiliary definitions and worked inputs -/

/-- The context after the loop of `With` has pushed the entries `es`. -/
def pushAll (ctx : Context) (es : List (Sigma fun _ : tag => Any)) : Context :=
  es.foldl (fun c kv => WithValue c (Key.tag kv.1) kv.2) ctx

/-- The two-call chain of two fresh loggers: `l1 := New(); ctx1 := l1.With(ctx0, "a", 1)`
and `l2 := New(); ctx2 := l2.With(ctx1, "b", 2)`. -/
def freshChain : List Attach :=
  [{ l := New, range := RangeOrder.stored, k := "a", v := Any.int 1 },
   { l := New, range := RangeOrder.stored, k := "b", v := Any.int 2 }]

/-- The chain of `example/main.go`: `main` attaches `user_id` with a fresh
logger, `stuff` attaches `function` with a logger reconstructed from the
context it received. -/
def mainChain : List Attach :=
  [{ l := New, range := RangeOrder.stored, k := "user_id", v := Any.string "123" },
   { l := FromContext
       (New.With RangeOrder.stored Context.background "user_id" (Any.string "123")).2,
     range := RangeOrder.reversed, k := "function", v := Any.string "stuff" }]

/-- The context that `main` passes to `stuff`. -/
def mainCtx : Context :=
  (New.With RangeOrder.stored Context.background "user_id" (Any.string "123")).2

/-- The heap of `example/main.go` when `main` calls `stuff`: one logger, made by
`New()`, on which `With(ctx, "user_id", "123")` has been called. -/
def mainHeap : Heap := [(New.With RangeOrder.stored Context.background "user_id" (Any.string "123")).1]

/-- A context that holds application values only: one under the plain string
key `"user_id"`, one under a key of a type of the application. -/
def appCtx : Context :=
  WithValue (WithValue Context.background (Key.str "user_id") (Any.string "7"))
    (Key.other "main.ctxKey" "0") (Any.int 5)

/-- A host for worked inputs: serialization always succeeds and renders the
level and the message of the record. -/
def plainRuntime : Runtime :=
  { Marshal := fun msg => Except.ok (msg.Level ++ " " ++ msg.Message),
    now := "2024-05-01T10:00:00Z",
    Sprintf := fun format _ => format,
    file := "/go/src/github.com/ShawnMilo/logger/logger.go",
    callers := { Function := "runtime.Callers", File := "/usr/lib/go/src/runtime/extern.go",
                 Line := 331 } }

/-- A member value of the JSON object of a record: a string, or the object of
the tags. -/
inductive JsonValue where
  | str (s : String)
  | tags (m : tagList)
  deriving DecidableEq

/-- The members of the JSON object that `json.Marshal(&msg)` encodes, by the
struct tags of `message`: `level`, `event_time` and `message` always, `trace`
and `tags` under `omitempty`, which leaves out an empty string and a map
without entries. -/
def jsonMembers (msg : message) : List (String × JsonValue) :=
  [("level", JsonValue.str msg.Level), ("event_time", JsonValue.str msg.EventTime),
   ("message", JsonValue.str msg.Message)]
  ++ (if msg.Trace = "" then [] else [("trace", JsonValue.str msg.Trace)])
  ++ (if msg.Tags.entries.isEmpty then [] else [("tags", JsonValue.tags msg.Tags)])

/-- The record that `log` builds at level `ERROR` when it is called with the
active frames `stk` of its caller. -/
def errorRecord (rt : Runtime) (stk : List Frame) (l : Logger) (text : String) : message :=
  { Level := "ERROR", EventTime := rt.now, Message := text,
    Trace := stack rt (ownFrame rt "(*Logger).log" 134 :: stk), Tags := l.tags }

/-- The usage pattern of `example/main.go`: every call of the chain is made by
a logger just built by `FromContext` from the context the call receives, or
by the logger of the call before it, as that call left it. -/
def Reconstructing (ctx0 : Context) (steps : List Attach) : Prop :=
  ∀ i (hi : i < steps.length),
    (steps.get ⟨i, hi⟩).l = FromContext (chain ctx0 (steps.take i)) ∨
    ∃ j, ∃ hj : j < steps.length, i = j + 1 ∧
      (steps.get ⟨i, hi⟩).l =
        ((steps.get ⟨j, hj⟩).l.With (steps.get ⟨j, hj⟩).range (chain ctx0 (steps.take j))
          (steps.get ⟨j, hj⟩).k (steps.get ⟨j, hj⟩).v).1

/-- The frames of `example/main.go` that are active when `crash` calls the
logger at line 30, innermost first. -/
def crashStack : List Frame :=
  [{ Function := "main.crash", File := "/home/u/example/main.go", Line := 30 },
   { Function := "main.stuff", File := "/home/u/example/main.go", Line := 25 },
   { Function := "main.main", File := "/home/u/example/main.go", Line := 16 },
   { Function := "runtime.main", File := "/usr/lib/go/src/runtime/proc.go", Line := 250 },
   { Function := "runtime.goexit", File := "/usr/lib/go/src/runtime/asm_amd64.s", Line := 1650 }]

/-- The frames of a web server whose handler `main.index` calls the logger
itself, innermost first. -/
def indexStack : List Frame :=
  [{ Function := "main.index", File := "/home/u/app/main.go", Line := 12 },
   { Function := "net/http.HandlerFunc.ServeHTTP",
     File := "/usr/lib/go/src/net/http/server.go", Line := 2136 },
   { Function := "runtime.goexit", File := "/usr/lib/go/src/runtime/asm_amd64.s", Line := 1650 }]

/-- The record that `log` builds and hands to `json.Marshal`: the trace is
captured at level `ERROR` and is empty at every other level. -/
def logRecord (rt : Runtime) (stk : List Frame) (l : Logger) (level text : String) : message :=
  if level = "ERROR" then errorRecord rt stk l text else record rt l level text

/-- A host on which `json.Marshal` fails, as it does on a tag value that JSON
cannot encode. -/
def failingRuntime : Runtime :=
  { plainRuntime with Marshal := fun _ => Except.error "json: unsupported type: chan int" }

/-- A chain in the usage pattern: `main` attaches `user_id` with its fresh
logger and then `role` with the same logger, and `stuff` attaches `function`
with a logger reconstructed from the context it received. -/
def usageChain : List Attach :=
  [{ l := New, range := RangeOrder.stored, k := "user_id", v := Any.string "123" },
   { l := (New.With RangeOrder.stored Context.background "user_id" (Any.string "123")).1,
     range := RangeOrder.reversed, k := "role", v := Any.string "admin" },
   { l := FromContext
       ((New.With RangeOrder.stored Context.background "user_id" (Any.string "123")).1.With
         RangeOrder.reversed
         (New.With RangeOrder.stored Context.background "user_id" (Any.string "123")).2
         "role" (Any.string "admin")).2,
     range := RangeOrder.stored, k := "function", v := Any.string "stuff" }]

/-! ## Lemmas on contexts and maps -/

theorem foldl_withStep (es : List (Sigma fun _ : tag => Any)) (acc : List tag × Context) :
    es.foldl withStep acc = (acc.1 ++ es.map Sigma.fst, pushAll acc.2 es) := by
  induction es generalizing acc with
  | nil => simp [pushAll]
  | cons e rest ih =>
    simp only [List.foldl_cons, ih, withStep, pushAll, List.map_cons, List.append_assoc,
      List.singleton_append]

theorem With_fst (r : RangeOrder) (l : Logger) (ctx : Context) (k : String) (v : Any) :
    (l.With r ctx k v).1 = { tags := l.tags.insert k v } := rfl

theorem With_snd (r : RangeOrder) (l : Logger) (ctx : Context) (k : String) (v : Any) :
    (l.With r ctx k v).2 =
      WithValue (pushAll (WithValue ctx (Key.str k) v) (r.1 (l.tags.insert k v))) tagsKey
        (Any.tags ((r.1 (l.tags.insert k v)).map Sigma.fst)) := by
  simp [Logger.With, foldl_withStep]

theorem range_nodupKeys (r : RangeOrder) (m : tagList) : (r.1 m).NodupKeys :=
  (List.perm_nodupKeys (r.2 m)).2 m.nodupKeys

theorem range_dlookup (r : RangeOrder) (m : tagList) (t : tag) :
    (r.1 m).dlookup t = m.lookup t :=
  List.perm_dlookup t (range_nodupKeys r m) m.nodupKeys (r.2 m)

theorem range_keys (r : RangeOrder) (m : tagList) (t : tag) :
    t ∈ (r.1 m).map Sigma.fst ↔ t ∈ m.keys := by
  have h := (r.2 m).map Sigma.fst
  exact h.mem_iff

theorem Value_WithValue (ctx : Context) (k key : Key) (v : Any) :
    (WithValue ctx k v).Value key = if k = key then v else ctx.Value key := rfl

theorem Value_pushAll_tag (es : List (Sigma fun _ : tag => Any)) (hnd : es.NodupKeys)
    (ctx : Context) (t : tag) :
    (pushAll ctx es).Value (Key.tag t) = (es.dlookup t).getD (ctx.Value (Key.tag t)) := by
  induction es generalizing ctx with
  | nil => simp [pushAll]
  | cons e rest ih =>
    obtain ⟨hk, hrest⟩ := List.nodupKeys_cons.1 hnd
    have hstep : pushAll ctx (e :: rest) = pushAll (WithValue ctx (Key.tag e.1) e.2) rest := rfl
    rw [hstep, ih hrest]
    by_cases h : e.1 = t
    · subst h
      have hnone : rest.dlookup e.1 = none := List.dlookup_eq_none.2 hk
      obtain ⟨a, b⟩ := e
      simp [hnone, Value_WithValue, List.dlookup_cons_eq]
    · have hne : t ≠ e.1 := fun h2 => h h2.symm
      rw [List.dlookup_cons_ne rest e hne]
      have hkey : ¬ (Key.tag e.1 = Key.tag t) := fun h2 => h (Key.tag.inj h2)
      simp [Value_WithValue, hkey]

theorem Value_pushAll_other (es : List (Sigma fun _ : tag => Any)) (ctx : Context) (key : Key)
    (hkey : ∀ t, t ∈ es.map Sigma.fst → key ≠ Key.tag t) :
    (pushAll ctx es).Value key = ctx.Value key := by
  induction es generalizing ctx with
  | nil => simp [pushAll]
  | cons e rest ih =>
    have hstep : pushAll ctx (e :: rest) = pushAll (WithValue ctx (Key.tag e.1) e.2) rest := rfl
    rw [hstep, ih _ (fun t ht => hkey t (by simp [ht]))]
    have hne : ¬ (Key.tag e.1 = key) := fun h => hkey e.1 (by simp) h.symm
    simp [Value_WithValue, hne]

theorem lookup_foldl_insert (f : tag → Any) (names : List tag) (log0 : Logger) (t : tag) :
    (names.foldl (fun (log : Logger) n => { tags := log.tags.insert n (f n) }) log0).tags.lookup t
      = if t ∈ names then some (f t) else log0.tags.lookup t := by
  induction names generalizing log0 with
  | nil => simp
  | cons n rest ih =>
    rw [List.foldl_cons, ih]
    by_cases h1 : t ∈ rest
    · simp [h1]
    · by_cases h2 : t = n
      · subst h2
        simp [h1, AList.lookup_insert]
      · simp [h1, h2, AList.lookup_insert_ne h2]

theorem FromContext_of_tags (ctx : Context) (names : List tag)
    (h : ctx.Value tagsKey = Any.tags names) (t : tag) :
    (FromContext ctx).tags.lookup t
      = if t ∈ names then some (ctx.Value (Key.tag t)) else none := by
  unfold FromContext
  simp only [h]
  rw [lookup_foldl_insert (fun n => ctx.Value (Key.tag n))]
  simp [New]

theorem Value_With_tagsKey (r : RangeOrder) (l : Logger) (ctx : Context) (k : String) (v : Any) :
    (l.With r ctx k v).2.Value tagsKey = Any.tags ((r.1 (l.tags.insert k v)).map Sigma.fst) := by
  rw [With_snd]; simp [Value_WithValue]

theorem Value_With_tag (r : RangeOrder) (l : Logger) (ctx : Context) (k : String) (v : Any)
    (t : tag) :
    (l.With r ctx k v).2.Value (Key.tag t)
      = ((l.tags.insert k v).lookup t).getD (ctx.Value (Key.tag t)) := by
  rw [With_snd]
  have h1 : ¬ (tagsKey = Key.tag t) := by simp [tagsKey]
  rw [Value_WithValue, if_neg h1, Value_pushAll_tag _ (range_nodupKeys r _), range_dlookup]
  have h2 : ¬ (Key.str k = Key.tag t) := by simp
  rw [Value_WithValue, if_neg h2]

/-- Reconstruction after an attachment yields the store of the attaching logger. -/
theorem lookup_FromContext_With (r : RangeOrder) (l : Logger) (ctx : Context) (k : String)
    (v : Any) (t : tag) :
    (FromContext (l.With r ctx k v).2).tags.lookup t = (l.tags.insert k v).lookup t := by
  rw [FromContext_of_tags _ _ (Value_With_tagsKey r l ctx k v), Value_With_tag]
  by_cases h : t ∈ (l.tags.insert k v).keys
  · rw [if_pos ((range_keys r _ t).2 h)]
    have hs : ((l.tags.insert k v).lookup t).isSome := AList.lookup_isSome.2 (AList.mem_keys.2 h)
    obtain ⟨x, hx⟩ := Option.isSome_iff_exists.1 hs
    simp [hx]
  · rw [if_neg (fun h2 => h ((range_keys r _ t).1 h2))]
    exact (AList.lookup_eq_none.2 (fun h2 => h (AList.mem_keys.1 h2))).symm


theorem chain_append (ctx : Context) (xs : List Attach) (s : Attach) :
    chain ctx (xs ++ [s]) = (s.l.With s.range (chain ctx xs) s.k s.v).2 := by
  induction xs generalizing ctx with
  | nil => rfl
  | cons x rest ih =>
    show chain (x.l.With x.range ctx x.k x.v).2 (rest ++ [s]) = _
    rw [ih]
    rfl

theorem lastAttach_append (xs : List Attach) (s : Attach) (t : tag) :
    lastAttach (xs ++ [s]) t = if s.k = t then some s.v else lastAttach xs t := by
  unfold lastAttach
  rw [List.reverse_append, List.reverse_singleton, List.singleton_append, List.find?_cons]
  by_cases h : s.k = t <;> simp [h]

theorem lastAttach_isSome (xs : List Attach) (t : tag) :
    (lastAttach xs t).isSome ↔ t ∈ xs.map (fun s => s.k) := by
  induction xs using List.reverseRecOn with
  | nil => simp [lastAttach]
  | append_singleton xs s ih =>
    rw [lastAttach_append]
    by_cases h : s.k = t
    · simp [h]
    · have h2 : ¬ t = s.k := fun e => h e.symm
      simp [h, h2, ih]

theorem lookup_insert_eq (m : tagList) (k : String) (v : Any) (t : tag) :
    (m.insert k v).lookup t = if k = t then some v else m.lookup t := by
  by_cases h : k = t
  · subst h; simp [AList.lookup_insert]
  · have h2 : t ≠ k := fun e => h e.symm
    simp [h, AList.lookup_insert_ne h2]

theorem mem_keys_iff_isSome (m : tagList) (t : tag) :
    t ∈ m.keys ↔ (m.lookup t).isSome := by
  rw [AList.lookup_isSome, AList.mem_keys]

theorem lookup_chain_take (ctx0 : Context) (steps : List Attach)
    (h0 : (FromContext ctx0).tags.keys = []) (hs : InStep ctx0 steps) (j : Nat)
    (hj : j ≤ steps.length) (t : tag) :
    (FromContext (chain ctx0 (steps.take j))).tags.lookup t = lastAttach (steps.take j) t := by
  induction j with
  | zero =>
    have hn : t ∉ (FromContext ctx0).tags.keys := by simp [h0]
    have : (FromContext ctx0).tags.lookup t = none :=
      AList.lookup_eq_none.2 (fun h => hn (AList.mem_keys.1 h))
    simpa [chain, lastAttach] using this
  | succ j ih =>
    have hlt : j < steps.length := hj
    have htake : steps.take (j + 1) = steps.take j ++ [steps.get ⟨j, hlt⟩] := by
      rw [List.take_succ]
      simp [List.getElem?_eq_getElem hlt]
    rw [htake, chain_append, lastAttach_append, lookup_FromContext_With, lookup_insert_eq]
    by_cases h : (steps.get ⟨j, hlt⟩).k = t
    · rw [if_pos h, if_pos h]
    · rw [if_neg h, if_neg h, hs j hlt t, ih (Nat.le_of_lt hlt)]

theorem pushAll_concat (ctx : Context) (es : List (Sigma fun _ : tag => Any))
    (e : Sigma fun _ : tag => Any) :
    pushAll ctx (es ++ [e]) = WithValue (pushAll ctx es) (Key.tag e.1) e.2 := by
  simp [pushAll, List.foldl_append]

theorem up_pushAll (ctx : Context) (es : List (Sigma fun _ : tag => Any)) (m : Nat) :
    (pushAll ctx es).up (es.length + m) = ctx.up m := by
  induction es using List.reverseRecOn with
  | nil => simp [pushAll]
  | append_singleton es e ih =>
    rw [pushAll_concat, List.length_append, List.length_singleton]
    have hn : es.length + 1 + m = (es.length + m) + 1 := by omega
    rw [hn]
    exact ih

theorem hops_pushAll (ctx : Context) (es : List (Sigma fun _ : tag => Any)) (t : tag)
    (ht : t ∈ es.map Sigma.fst) :
    ∃ d, (pushAll ctx es).hops (Key.tag t) = some d ∧ d < es.length := by
  induction es using List.reverseRecOn with
  | nil => simp at ht
  | append_singleton es e ih =>
    rw [pushAll_concat, List.length_append, List.length_singleton]
    by_cases h : e.1 = t
    · exact ⟨0, by simp [WithValue, Context.hops, h], Nat.succ_pos _⟩
    · have hmem : t ∈ es.map Sigma.fst := by
        rw [List.map_append, List.mem_append] at ht
        rcases ht with h1 | h1
        · exact h1
        · simp at h1
          exact absurd h1.symm h
      obtain ⟨d, hd, hlt⟩ := ih hmem
      have hkey : ¬ (Key.tag e.1 = Key.tag t) := fun h2 => h (Key.tag.inj h2)
      exact ⟨d + 1, by simp [WithValue, Context.hops, hkey, hd], Nat.succ_lt_succ hlt⟩

theorem range_length (r : RangeOrder) (m : tagList) : (r.1 m).length = m.keys.length := by
  rw [(r.2 m).length_eq]
  simp [AList.keys, List.keys]

theorem log_eq (rt : Runtime) (stk : List Frame) (l : Logger) (level text : String)
    (w : World) (hlevel : level ≠ "ERROR") :
    l.log rt stk level text w
      = { DEBUG := w.DEBUG, stdout := w.stdout ++ [written rt (record rt l level text)] } := by
  unfold Logger.log written record
  simp only [if_neg hlevel]
  split <;> rfl

theorem log_ERROR_eq (rt : Runtime) (stk : List Frame) (l : Logger) (text : String) (w : World) :
    l.log rt stk "ERROR" text w
      = { DEBUG := w.DEBUG,
          stdout := w.stdout ++ [written rt
            { Level := "ERROR", EventTime := rt.now, Message := text,
              Trace := stack rt (ownFrame rt "(*Logger).log" 134 :: stk), Tags := l.tags }] } := by
  unfold Logger.log written
  simp only [if_true]
  split <;> rfl

theorem log_ERROR_errorRecord (rt : Runtime) (stk : List Frame) (l : Logger) (text : String)
    (w : World) :
    l.log rt stk "ERROR" text w
      = { DEBUG := w.DEBUG, stdout := w.stdout ++ [written rt (errorRecord rt stk l text)] } :=
  log_ERROR_eq rt stk l text w

theorem intercalate_go_length (s : String) (as : List String) (acc : String) :
    acc.length ≤ (String.intercalate.go acc s as).length := by
  induction as generalizing acc with
  | nil => exact Nat.le_refl _
  | cons a rest ih =>
    have h := ih (acc ++ s ++ a)
    rw [String.length_append, String.length_append] at h
    show acc.length ≤ (String.intercalate.go (acc ++ s ++ a) s rest).length
    omega

theorem intercalate_cons_ne_empty (s x : String) (xs : List String) (hx : 0 < x.length) :
    s.intercalate (x :: xs) ≠ "" := by
  intro h
  have h1 := intercalate_go_length s xs x
  have h2 : (s.intercalate (x :: xs)).length = 0 := by rw [h]; rfl
  have h3 : s.intercalate (x :: xs) = String.intercalate.go x s xs := rfl
  rw [h3] at h2
  omega

theorem framePath_length_pos (frame : Frame) : 0 < (framePath frame).length := by
  unfold framePath
  simp only [String.length_append]
  have h : (":" : String).length = 1 := rfl
  omega

theorem stackNames_cons_of_not_stop (frame : Frame) (rest : List Frame)
    (h : stopFrame frame = false) :
    ∃ names, stackNames (frame :: rest) = framePath frame :: names := by
  cases rest with
  | nil => exact ⟨[], by simp [stackNames, h]⟩
  | cons next more => exact ⟨stackNames (next :: more), by simp [stackNames, h]⟩

theorem stack_eq_captured (rt : Runtime) (stk : List Frame) :
    stack rt stk = ", ".intercalate (stackNames ((stk.drop 2).take 100)) := rfl

theorem log_logRecord (rt : Runtime) (stk : List Frame) (l : Logger) (level text : String)
    (w : World) :
    l.log rt stk level text w
      = { DEBUG := w.DEBUG, stdout := w.stdout ++ [written rt (logRecord rt stk l level text)] } := by
  unfold logRecord
  by_cases h : level = "ERROR"
  · subst h
    rw [if_pos rfl]
    exact log_ERROR_errorRecord rt stk l text w
  · rw [if_neg h]
    exact log_eq rt stk l level text w h

theorem lookup_trace_record (rt : Runtime) (l : Logger) (level text : String) :
    (jsonMembers (record rt l level text)).lookup "trace" = none := by
  by_cases h : l.tags.entries.isEmpty = true <;> simp [jsonMembers, record, List.lookup, h]

theorem take_succ_get (steps : List Attach) (j : Nat) (hlt : j < steps.length) :
    steps.take (j + 1) = steps.take j ++ [steps.get ⟨j, hlt⟩] := by
  rw [List.take_succ]
  simp [List.getElem?_eq_getElem hlt]

theorem inStep_of_reconstructing (ctx0 : Context) (steps : List Attach)
    (hu : Reconstructing ctx0 steps) : InStep ctx0 steps := by
  intro i hi t
  rcases hu i hi with h | ⟨j, hj, hij, h⟩
  · rw [h]
  · rw [h, hij, take_succ_get steps j hj, chain_append, lookup_FromContext_With, With_fst]

theorem stackNames_eq_takeWhile (frames : List Frame) (hne : frames ≠ []) :
    stackNames frames = (frames.takeWhile (fun f => !stopFrame f)).map framePath := by
  induction frames with
  | nil => exact absurd rfl hne
  | cons f rest ih =>
    cases rest with
    | nil =>
      cases h : stopFrame f <;> simp [stackNames, List.takeWhile, h]
    | cons g more =>
      have ih2 := ih (List.cons_ne_nil g more)
      have e : stackNames (f :: g :: more)
          = if stopFrame f then [] else framePath f :: stackNames (g :: more) := rfl
      rw [e]
      cases h : stopFrame f
      · have hr : (f :: g :: more).takeWhile (fun f => !stopFrame f)
            = f :: (g :: more).takeWhile (fun f => !stopFrame f) :=
          List.takeWhile_cons_of_pos (by simp [h])
        simp only [Bool.false_eq_true, if_false]
        rw [hr, List.map_cons, ih2]
      · simp [h]

theorem takeWhile_append_stop (p : Frame → Bool) (pre : List Frame) (t : Frame)
    (post : List Frame) (hpre : ∀ f, f ∈ pre → p f = true) (ht : p t = false) :
    (pre ++ t :: post).takeWhile p = pre := by
  induction pre with
  | nil => simp [List.takeWhile, ht]
  | cons x xs ih =>
    have hx : p x = true := hpre x (by simp)
    rw [List.cons_append, List.takeWhile_cons_of_pos hx,
      ih (fun f hf => hpre f (List.mem_cons_of_mem _ hf))]

theorem takeWhile_all (p : Frame → Bool) (frames : List Frame)
    (hall : ∀ f, f ∈ frames → p f = true) : frames.takeWhile p = frames := by
  induction frames with
  | nil => rfl
  | cons x xs ih =>
    rw [List.takeWhile_cons_of_pos (hall x (by simp)),
      ih (fun f hf => hall f (List.mem_cons_of_mem _ hf))]

theorem LastIndexFrom_absent (c : Char) (xs : List Char) (i : Nat) (last : Int)
    (h : c ∉ xs) : LastIndexFrom c xs i last = last := by
  induction xs generalizing i last with
  | nil => rfl
  | cons x rest ih =>
    have hx : ¬ x = c := fun e => h (by simp [e])
    have hr : c ∉ rest := fun e => h (List.mem_cons_of_mem _ e)
    simp only [LastIndexFrom, if_neg hx]
    exact ih _ _ hr

theorem LastIndexFrom_last (c : Char) (a b : List Char) (i : Nat) (last : Int)
    (h : c ∉ b) : LastIndexFrom c (a ++ c :: b) i last = ((i + a.length : Nat) : Int) := by
  induction a generalizing i last with
  | nil =>
    simp only [List.nil_append, LastIndexFrom, if_true, List.length_nil, Nat.add_zero]
    exact LastIndexFrom_absent c b _ _ h
  | cons x rest ih =>
    show LastIndexFrom c (rest ++ c :: b) (i + 1) (if x = c then (i : Int) else last) = _
    rw [ih, List.length_cons]
    congr 1
    omega

/-! ## The claims -/

/-- C1, refuted as stated: on the chain of two fresh loggers from the background
context, the logger reconstructed at the last node has lost the key `a` of the
first call, so the path property fails for a chain of arbitrary loggers. -/
theorem C1_fresh_logger_drops_tags :
    (FromContext Context.background).tags.keys = [] ∧
    (FromContext (chain Context.background freshChain)).tags.lookup "a" = none ∧
    lastAttach freshChain "a" = some (Any.int 1) ∧
    ¬ PathTags Context.background freshChain := by
  refine ⟨by decide, by decide, by decide, ?_⟩
  intro h
  have h2 := (h 2 (by decide)).2 "a"
  revert h2
  decide

/-- C1, amended: on a chain from a context without tags in which every call is
made by a logger whose store holds the tags of the context it receives, the
logger reconstructed at every node binds exactly the keys attached so far,
each to its most recently attached value. -/
theorem C1_path_tags_of_in_step (ctx0 : Context) (steps : List Attach)
    (h0 : (FromContext ctx0).tags.keys = []) (hs : InStep ctx0 steps) :
    PathTags ctx0 steps := by
  intro j hj
  refine ⟨fun t => ?_, fun t => lookup_chain_take ctx0 steps h0 hs j hj t⟩
  rw [mem_keys_iff_isSome, lookup_chain_take ctx0 steps h0 hs j hj t, lastAttach_isSome]

/-- C1, amended, on the chain of `example/main.go`. -/
theorem C1_path_tags_of_in_step_witness :
    (FromContext Context.background).tags.keys = [] ∧ InStep Context.background mainChain ∧
      PathTags Context.background mainChain :=
  have h0 : (FromContext Context.background).tags.keys = [] := by decide
  have hs : InStep Context.background mainChain := by
    intro i hi t
    match i, hi with
    | 0, _ => rfl
    | 1, _ => rfl
  ⟨h0, hs, C1_path_tags_of_in_step Context.background mainChain h0 hs⟩


/-- C2: the logger reconstructed from the context that `l.With(ctx, k, v)`
returns has the store of `l` after the call, which is the store of `l` before
the call with `k` set to `v`, whatever `ctx` already carries and whatever
order the loop of `With` takes. -/
theorem C2_round_trip (r r2 : RangeOrder) (l : Logger) (ctx : Context) (k : String) (v : Any) :
    sameTags (FromContext (l.With r ctx k v).2) (l.With r ctx k v).1 ∧
    (∀ t : tag, (FromContext (l.With r ctx k v).2).tags.lookup t
        = if k = t then some v else l.tags.lookup t) ∧
    (∀ t : tag, t ∈ (FromContext (l.With r ctx k v).2).tags.keys ↔ t = k ∨ t ∈ l.tags.keys) ∧
    sameTags (FromContext (l.With r ctx k v).2) (FromContext (l.With r2 ctx k v).2) := by
  refine ⟨fun t => ?_, fun t => ?_, fun t => ?_, fun t => ?_⟩
  · rw [lookup_FromContext_With, With_fst]
  · rw [lookup_FromContext_With, lookup_insert_eq]
  · rw [mem_keys_iff_isSome, lookup_FromContext_With, ← mem_keys_iff_isSome, ← AList.mem_keys,
      AList.mem_insert, AList.mem_keys]
  · rw [lookup_FromContext_With, lookup_FromContext_With]

/-- C3: let `ctx` be returned by a `With` on the logger at `p`, let `k` be
absent from that logger, let `a` be a sibling reconstructed from `ctx`, and
let the callee reconstruct `lg` from `ctx` and call `lg.With(ctx, k, v)`.
Afterwards the logger at `p` is unchanged and still answers `""` for `k`, the
sibling and every other logger but `lg` are unchanged, a later
`FromContext(ctx)` builds the logger that `lg` was before the call, and `lg`
holds that store with `k` bound to `v`; the store that `lg` started from is
the store of the logger at `p`. -/
theorem C3_no_upward_leak (r0 r : RangeOrder) (h0 : Heap) (p : Nat) (ctx0 : Context)
    (k0 : String) (v0 : Any) (h : Heap) (ctx : Context)
    (hW : Heap.With r0 h0 p ctx0 k0 v0 = some (h, ctx))
    (l : Logger) (hl : h[p]? = some l) (k : String) (v : Any) (hk : k ∉ l.tags.keys) :
    ∃ h2 ctx2,
      Heap.With r ((h.FromContext ctx).1.FromContext ctx).1
        ((h.FromContext ctx).1.FromContext ctx).2 ctx k v = some (h2, ctx2) ∧
      h2[p]? = some l ∧
      Heap.ValueString h2 p k = some "" ∧
      h2[(h.FromContext ctx).2]? = some (FromContext ctx) ∧
      (∀ q, q ≠ ((h.FromContext ctx).1.FromContext ctx).2 →
        h2[q]? = ((h.FromContext ctx).1.FromContext ctx).1[q]?) ∧
      (h2.FromContext ctx).1[(h2.FromContext ctx).2]?
        = ((h.FromContext ctx).1.FromContext ctx).1[((h.FromContext ctx).1.FromContext ctx).2]? ∧
      h2[((h.FromContext ctx).1.FromContext ctx).2]?
        = some { tags := (FromContext ctx).tags.insert k v } ∧
      sameTags (FromContext ctx) l := by
  have hp : p < h.length := by
    by_contra hcon
    rw [List.getElem?_eq_none (Nat.le_of_not_lt hcon)] at hl
    exact Option.noConfusion hl
  have hlenA : (h ++ [FromContext ctx]).length = h.length + 1 := by simp
  have hq : ((h ++ [FromContext ctx]) ++ [FromContext ctx])[(h ++ [FromContext ctx]).length]?
      = some (FromContext ctx) := List.getElem?_concat_length _ _
  have hqlt : (h ++ [FromContext ctx]).length
      < ((h ++ [FromContext ctx]) ++ [FromContext ctx]).length := by simp
  refine ⟨((h ++ [FromContext ctx]) ++ [FromContext ctx]).set (h ++ [FromContext ctx]).length
      ((FromContext ctx).With r ctx k v).1, ((FromContext ctx).With r ctx k v).2, ?_, ?_, ?_, ?_,
      ?_, ?_, ?_, ?_⟩
  · show Heap.With r ((h ++ [FromContext ctx]) ++ [FromContext ctx])
      (h ++ [FromContext ctx]).length ctx k v = _
    unfold Heap.With
    rw [hq]
  · rw [List.getElem?_set_ne (by omega), List.getElem?_append_left (by omega),
      List.getElem?_append_left hp, hl]
  · unfold Heap.ValueString
    rw [List.getElem?_set_ne (by omega), List.getElem?_append_left (by omega),
      List.getElem?_append_left hp, hl]
    have hnone : l.tags.lookup k = none :=
      AList.lookup_eq_none.2 (fun hm => hk (AList.mem_keys.1 hm))
    simp [Logger.ValueString, hnone]
  · show (((h ++ [FromContext ctx]) ++ [FromContext ctx]).set (h ++ [FromContext ctx]).length
      ((FromContext ctx).With r ctx k v).1)[h.length]? = _
    rw [List.getElem?_set_ne (by omega), List.getElem?_append_left (by omega)]
    exact List.getElem?_concat_length _ _
  · intro q hne
    exact List.getElem?_set_ne (fun e => hne e.symm)
  · show ((((h ++ [FromContext ctx]) ++ [FromContext ctx]).set (h ++ [FromContext ctx]).length
      ((FromContext ctx).With r ctx k v).1) ++ [FromContext ctx])[
        (((h ++ [FromContext ctx]) ++ [FromContext ctx]).set (h ++ [FromContext ctx]).length
      ((FromContext ctx).With r ctx k v).1).length]?
      = ((h ++ [FromContext ctx]) ++ [FromContext ctx])[(h ++ [FromContext ctx]).length]?
    rw [List.getElem?_concat_length, hq]
  · show (((h ++ [FromContext ctx]) ++ [FromContext ctx]).set (h ++ [FromContext ctx]).length
      ((FromContext ctx).With r ctx k v).1)[(h ++ [FromContext ctx]).length]? = _
    rw [List.getElem?_set_self hqlt]
    rfl
  · unfold Heap.With at hW
    cases hh : h0[p]? with
    | none => rw [hh] at hW; exact Option.noConfusion hW
    | some l0 =>
      rw [hh] at hW
      have hpair := Option.some.inj hW
      have hh2 : h = h0.set p (l0.With r0 ctx0 k0 v0).1 := (congrArg Prod.fst hpair).symm
      have hc2 : ctx = (l0.With r0 ctx0 k0 v0).2 := (congrArg Prod.snd hpair).symm
      have hp0 : p < h0.length := by
        by_contra hcon
        rw [List.getElem?_eq_none (Nat.le_of_not_lt hcon)] at hh
        exact Option.noConfusion hh
      rw [hh2, List.getElem?_set_self hp0] at hl
      have hl2 : l = (l0.With r0 ctx0 k0 v0).1 := (Option.some.inj hl).symm
      intro t
      rw [hc2, hl2, lookup_FromContext_With, With_fst]

/-- C3 on `example/main.go`: the caller sets `user_id` to `"123"`, the callee
attaches `function`; afterwards the logger of the caller still has `user_id`
alone. -/
theorem C3_no_upward_leak_witness :
    Heap.With RangeOrder.stored [New] 0 Context.background "user_id" (Any.string "123")
      = some (mainHeap, mainCtx) ∧
    "function" ∉ (New.With RangeOrder.stored Context.background "user_id"
      (Any.string "123")).1.tags.keys ∧
    ∃ h2 ctx2,
      Heap.With RangeOrder.reversed ((mainHeap.FromContext mainCtx).1.FromContext mainCtx).1
        ((mainHeap.FromContext mainCtx).1.FromContext mainCtx).2 mainCtx "function"
        (Any.string "stuff") = some (h2, ctx2) ∧
      (h2[0]?).map (fun l => l.tags.keys) = some ["user_id"] ∧
      Heap.ValueString h2 0 "function" = some "" :=
  have hW : Heap.With RangeOrder.stored [New] 0 Context.background "user_id" (Any.string "123")
      = some (mainHeap, mainCtx) := rfl
  have hk : "function" ∉ (New.With RangeOrder.stored Context.background "user_id"
      (Any.string "123")).1.tags.keys := by decide
  have hC := C3_no_upward_leak RangeOrder.stored RangeOrder.reversed [New] 0 Context.background
    "user_id" (Any.string "123") mainHeap mainCtx hW
    (New.With RangeOrder.stored Context.background "user_id" (Any.string "123")).1 rfl
    "function" (Any.string "stuff") hk
  match hC with
  | ⟨h2, ctx2, e1, e2, e3, _⟩ => ⟨hW, hk, h2, ctx2, e1, by rw [e2]; rfl, e3⟩

/-- C4: after `ctx1 = l.With(ctx, k, v1)` and `ctx2 = l.With(ctx1, k, v2)` with
`v1 ≠ v2`, both the store of `l` and the store of the logger reconstructed from
`ctx2` bind `k` to `v2` and not to `v1`. -/
theorem C4_later_value_wins (r1 r2 : RangeOrder) (l : Logger) (ctx : Context) (k : String)
    (v1 v2 : Any) (hv : v1 ≠ v2) :
    ((l.With r1 ctx k v1).1.With r2 (l.With r1 ctx k v1).2 k v2).1.tags.lookup k = some v2 ∧
    ((l.With r1 ctx k v1).1.With r2 (l.With r1 ctx k v1).2 k v2).1.tags.lookup k ≠ some v1 ∧
    (FromContext ((l.With r1 ctx k v1).1.With r2 (l.With r1 ctx k v1).2 k v2).2).tags.lookup k
      = some v2 ∧
    (FromContext ((l.With r1 ctx k v1).1.With r2 (l.With r1 ctx k v1).2 k v2).2).tags.lookup k
      ≠ some v1 := by
  have hne : (some v2 : Option Any) ≠ some v1 := fun h => hv (Option.some.inj h).symm
  have h1 : ((l.With r1 ctx k v1).1.With r2 (l.With r1 ctx k v1).2 k v2).1.tags.lookup k
      = some v2 := by
    rw [With_fst]; exact AList.lookup_insert _
  have h2 : (FromContext
      ((l.With r1 ctx k v1).1.With r2 (l.With r1 ctx k v1).2 k v2).2).tags.lookup k
      = some v2 := by
    rw [lookup_FromContext_With]; exact AList.lookup_insert _
  exact ⟨h1, h1 ▸ hne, h2, h2 ▸ hne⟩

/-- C4 on a fresh logger and the background context, with `"1"` then `"2"`. -/
theorem C4_later_value_wins_witness :
    Any.string "1" ≠ Any.string "2" ∧
    ((New.With RangeOrder.stored Context.background "k" (Any.string "1")).1.With
      RangeOrder.stored
      (New.With RangeOrder.stored Context.background "k" (Any.string "1")).2 "k"
      (Any.string "2")).1.tags.lookup "k" = some (Any.string "2") :=
  ⟨by decide,
   (C4_later_value_wins RangeOrder.stored RangeOrder.stored New Context.background "k"
      (Any.string "1") (Any.string "2") (by decide)).1⟩

/-- C5, refuted as stated: on the zero value `Logger{}`, whose map is nil, the
assignment in `With` panics, so `With` fails; it fails on the nil context
too. -/
theorem C5_With_panics_on_zero_value :
    LoggerValue.With RangeOrder.stored LoggerValue.zero (some Context.background) "user_id"
      (Any.string "123") = Except.error "assignment to entry in nil map" ∧
    LoggerValue.With RangeOrder.stored New.toValue none "user_id" (Any.string "123")
      = Except.error "cannot create context from nil parent" :=
  ⟨rfl, rfl⟩

/-- C5, amended: on a logger whose map is allocated, with store `S`, and a
non-nil context, `l.With(ctx, k, v)` does not fail and leaves `l` with the
store `S` in which `k` is bound to `v`: `k` looks up to `v`, every other key
looks up as before, no key is removed, and the only key that may be new is
`k`. The same holds through every valid pointer. -/
theorem C5_With_sets_key (r : RangeOrder) (l : LoggerValue) (S : tagList)
    (hS : l.tags = some S) (ctx : Context) (k : String) (v : Any) :
    l.With r (some ctx) k v
      = Except.ok ({ tags := some (S.insert k v) },
          ( Logger.With r { tags := S } ctx k v).2) ∧
    ( Logger.With r { tags := S } ctx k v).1.tags = S.insert k v ∧
    (S.insert k v).lookup k = some v ∧
    (∀ t : tag, (S.insert k v).lookup t = if k = t then some v else S.lookup t) ∧
    S.keys ⊆ (S.insert k v).keys ∧
    (∀ t : tag, t ∈ (S.insert k v).keys ↔ t = k ∨ t ∈ S.keys) ∧
    (∀ (h : Heap) (p : Fin h.length),
      Heap.With r h p.1 ctx k v
        = some (h.set p.1 { tags := (h.get p).tags.insert k v }, ((h.get p).With r ctx k v).2)) := by
  refine ⟨?_, rfl, AList.lookup_insert _, fun t => lookup_insert_eq _ _ _ _, ?_, fun t => ?_, ?_⟩
  · obtain ⟨m⟩ := l
    simp only at hS
    subst hS
    rfl
  · intro t ht
    rw [← AList.mem_keys, AList.mem_insert, AList.mem_keys]
    exact Or.inr ht
  · rw [← AList.mem_keys, AList.mem_insert, AList.mem_keys]
  · intro h p
    unfold Heap.With
    rw [List.getElem?_eq_getElem p.2]
    rfl

/-- C5, amended, on `main` of `example/main.go`: the map of the logger of
`New()` is allocated, and `With(ctx, "user_id", "123")` returns and leaves the
store with the one entry. -/
theorem C5_With_sets_key_witness :
    New.toValue.tags = some ∅ ∧
    ∃ ctx2, New.toValue.With RangeOrder.stored (some Context.background) "user_id"
      (Any.string "123")
      = Except.ok ({ tags := some ((∅ : tagList).insert "user_id" (Any.string "123")) }, ctx2) :=
  ⟨rfl, _, (C5_With_sets_key RangeOrder.stored New.toValue ∅ rfl Context.background "user_id"
    (Any.string "123")).1⟩

/-- C6: the context `l.With(ctx, k, v)` returns (a) yields `v` at the string key
`k` and at the tag key `k`; (b) yields, at the tag key of every key of the
store of `l` after the call, the stored value, and finds it among the nodes
this call added; (c) holds under `tagsKey` a list in which every key of the
store occurs exactly once and nothing else occurs; (d) lies above `ctx` by
exactly the added nodes and resolves every other key as `ctx` does. -/
theorem C6_returned_context (r : RangeOrder) (l : Logger) (ctx : Context) (k : String) (v : Any) :
    (l.With r ctx k v).2.Value (Key.str k) = v ∧
    (l.With r ctx k v).2.Value (Key.tag k) = v ∧
    (∀ (t : tag) (x : Any), (l.With r ctx k v).1.tags.lookup t = some x →
      (l.With r ctx k v).2.Value (Key.tag t) = x ∧
      ∃ d, (l.With r ctx k v).2.hops (Key.tag t) = some d ∧
        d < (l.With r ctx k v).1.tags.keys.length + 2) ∧
    (∃ names, (l.With r ctx k v).2.Value tagsKey = Any.tags names ∧ names.Nodup ∧
      ∀ t : tag, t ∈ names ↔ t ∈ (l.With r ctx k v).1.tags.keys) ∧
    (l.With r ctx k v).2.up ((l.With r ctx k v).1.tags.keys.length + 2) = ctx ∧
    (∀ key : Key, key ≠ Key.str k → key ≠ tagsKey →
      (∀ t : tag, t ∈ (l.With r ctx k v).1.tags.keys → key ≠ Key.tag t) →
      (l.With r ctx k v).2.Value key = ctx.Value key) := by
  have hb : ∀ (t : tag) (x : Any), (l.With r ctx k v).1.tags.lookup t = some x →
      (l.With r ctx k v).2.Value (Key.tag t) = x := by
    intro t x hx
    rw [With_fst] at hx
    rw [Value_With_tag, hx]
    rfl
  refine ⟨?_, hb k v (AList.lookup_insert _), ?_, ?_, ?_, ?_⟩
  · rw [With_snd, Value_WithValue, if_neg (by simp [tagsKey]),
      Value_pushAll_other _ _ _ (by simp), Value_WithValue, if_pos rfl]
  · intro t x hx
    refine ⟨hb t x hx, ?_⟩
    have hmem : t ∈ (r.1 (l.tags.insert k v)).map Sigma.fst := by
      rw [range_keys, mem_keys_iff_isSome]
      rw [With_fst] at hx
      simp [hx]
    obtain ⟨d, hd, hlt⟩ := hops_pushAll (WithValue ctx (Key.str k) v) _ t hmem
    refine ⟨d + 1, ?_, ?_⟩
    · rw [With_snd]
      have hne : ¬ (tagsKey = Key.tag t) := by simp [tagsKey]
      simp [WithValue, Context.hops, hne]
      exact hd
    · rw [range_length] at hlt
      show d + 1 < (l.tags.insert k v).keys.length + 2
      omega
  · refine ⟨_, Value_With_tagsKey r l ctx k v, ?_, fun t => ?_⟩
    · have hp := (r.2 (l.tags.insert k v)).map Sigma.fst
      exact (hp.nodup_iff).2 (l.tags.insert k v).keys_nodup
    · rw [range_keys, With_fst]
  · rw [With_snd]
    show (pushAll (WithValue ctx (Key.str k) v) (r.1 (l.tags.insert k v))).up
      ((l.tags.insert k v).keys.length + 1) = ctx
    rw [← range_length r, up_pushAll]
    rfl
  · intro key h1 h2 h3
    rw [With_snd, Value_WithValue, if_neg (fun e => h2 e.symm), Value_pushAll_other,
      Value_WithValue, if_neg (fun e => h1 e.symm)]
    intro t ht
    exact h3 t (by rw [With_fst]; exact (range_keys r _ t).1 ht)

/-- C6 on the call of `stuff` in `example/main.go`: the context it gets back
yields `"stuff"` at `function`, still yields `"123"` at the inherited tag
`user_id`, found one node below the top, and resolves the string key `user_id`
as the context of `main` does. -/
theorem C6_returned_context_witness :
    ((FromContext mainCtx).With RangeOrder.stored mainCtx "function"
      (Any.string "stuff")).2.Value (Key.str "function") = Any.string "stuff" ∧
    ((FromContext mainCtx).With RangeOrder.stored mainCtx "function"
      (Any.string "stuff")).1.tags.lookup "user_id" = some (Any.string "123") ∧
    ((FromContext mainCtx).With RangeOrder.stored mainCtx "function"
      (Any.string "stuff")).2.Value (Key.tag "user_id") = Any.string "123" ∧
    ((FromContext mainCtx).With RangeOrder.stored mainCtx "function"
      (Any.string "stuff")).2.Value (Key.str "user_id") = mainCtx.Value (Key.str "user_id") :=
  have hC := C6_returned_context RangeOrder.stored (FromContext mainCtx) mainCtx "function"
    (Any.string "stuff")
  have hl : ((FromContext mainCtx).With RangeOrder.stored mainCtx "function"
      (Any.string "stuff")).1.tags.lookup "user_id" = some (Any.string "123") := by decide
  ⟨hC.1, hl, (hC.2.2.1 "user_id" (Any.string "123") hl).1,
   hC.2.2.2.2.2 (Key.str "user_id") (by decide) (by decide) (fun _ _ e => Key.noConfusion e)⟩

/-- C7: on a context that holds no tag-name list under `tagsKey`, `FromContext`
returns the logger that `New()` returns, whose store is empty; it returns a
logger and no error on every context. -/
theorem C7_no_tag_list (ctx : Context) (h : ∀ names, ctx.Value tagsKey ≠ Any.tags names) :
    FromContext ctx = New ∧ (FromContext ctx).tags.keys = [] ∧
    (∀ t : tag, (FromContext ctx).tags.lookup t = none) ∧
    New.tags.keys = [] ∧ FromContext Context.background = New := by
  have h1 : FromContext ctx = New := by
    unfold FromContext
    split
    · next names hn => exact absurd hn (h names)
    · rfl
  refine ⟨h1, ?_, fun t => ?_, rfl, rfl⟩
  · rw [h1]; rfl
  · rw [h1]; rfl

/-- C7 on a context of application values, one of them under the string key
`"user_id"`. -/
theorem C7_no_tag_list_witness :
    (∀ names, appCtx.Value tagsKey ≠ Any.tags names) ∧ FromContext appCtx = New ∧
    (FromContext appCtx).tags.keys = [] :=
  have h : ∀ names, appCtx.Value tagsKey ≠ Any.tags names := fun _ e => Any.noConfusion e
  ⟨h, (C7_no_tag_list appCtx h).1, (C7_no_tag_list appCtx h).2.1⟩

/-- C8: `ValueString(key)` is `""` when `key` is absent and `s` when `key` is
bound to the string `s`, so a key bound to `""` and an absent key give the same
answer; after `With(ctx, "user_id", "123")` the answer for `"user_id"` is
`"123"` and the answer for a key that is not set is `""`. -/
theorem C8_ValueString (l : Logger) (key : String) :
    (l.tags.lookup key = none → l.ValueString key = "") ∧
    (∀ s : String, l.tags.lookup key = some (Any.string s) → l.ValueString key = s) ∧
    ({ tags := l.tags.insert key (Any.string "") } : Logger).ValueString key
      = ({ tags := l.tags.erase key } : Logger).ValueString key ∧
    (∀ (r : RangeOrder) (ctx : Context),
      (l.With r ctx "user_id" (Any.string "123")).1.ValueString "user_id" = "123") ∧
    (∀ (r : RangeOrder) (ctx : Context), key ∉ l.tags.keys → key ≠ "user_id" →
      (l.With r ctx "user_id" (Any.string "123")).1.ValueString key = "") := by
  refine ⟨?_, ?_, ?_, ?_, ?_⟩
  · intro h
    simp [Logger.ValueString, h]
  · intro s h
    simp [Logger.ValueString, h, Sprintf_s]
  · simp [Logger.ValueString, AList.lookup_insert, AList.lookup_erase, Sprintf_s]
  · intro r ctx
    simp [Logger.ValueString, With_fst, AList.lookup_insert, Sprintf_s]
  · intro r ctx hk hne
    have hnone : l.tags.lookup key = none :=
      AList.lookup_eq_none.2 (fun hm => hk (AList.mem_keys.1 hm))
    simp [Logger.ValueString, With_fst, AList.lookup_insert_ne hne, hnone]

/-- C8 on the logger of `stuff` in `example/main.go`: `"user_id"` gives `"123"`
and the key `"session"`, which nobody set, gives `""`. -/
theorem C8_ValueString_witness :
    (FromContext mainCtx).tags.lookup "user_id" = some (Any.string "123") ∧
    (FromContext mainCtx).ValueString "user_id" = "123" ∧
    (FromContext mainCtx).tags.lookup "session" = none ∧
    (FromContext mainCtx).ValueString "session" = "" :=
  ⟨by decide, (C8_ValueString (FromContext mainCtx) "user_id").2.1 "123" (by decide),
   by decide, (C8_ValueString (FromContext mainCtx) "session").1 (by decide)⟩

/-- C9, the code at the failing inputs: for a key bound to the integer `123`
`ValueString` returns the bad-verb marker of `fmt` and not `"123"`, and for a
key bound to `true` it returns the marker and not `"true"`. -/
theorem C9_ValueString_bad_verb :
    (New.With RangeOrder.stored Context.background "n" (Any.int 123)).1.ValueString "n"
      = "%!s(int=123)" ∧
    (New.With RangeOrder.stored Context.background "n" (Any.int 123)).1.ValueString "n"
      ≠ "123" ∧
    (New.With RangeOrder.stored Context.background "b" (Any.bool true)).1.ValueString "b"
      = "%!s(bool=true)" ∧
    (New.With RangeOrder.stored Context.background "b" (Any.bool true)).1.ValueString "b"
      ≠ "true" := by
  decide

/-- C10: with the flag true `Debug` writes exactly one line, the `DEBUG` record
of the message and of the tags of the logger, and leaves the flag as it is;
with the flag false it changes nothing. After `SetDebug(b)` the flag is `b`
and the next `Debug` follows `b`, whatever the flag was before. `Info` and
`Error` write exactly one line, their record, whatever the flag. -/
theorem C10_debug_flag (rt : Runtime) (stk : List Frame) (l : Logger) (m : String) (w : World) :
    (l.Debug rt stk m w =
      if w.DEBUG then
        { DEBUG := true, stdout := w.stdout ++ [written rt (record rt l "DEBUG" m)] }
      else w) ∧
    (∀ b : Bool, (SetDebug b w).DEBUG = b ∧ (SetDebug b w).stdout = w.stdout ∧
      l.Debug rt stk m (SetDebug b w) =
        if b then
          { DEBUG := true, stdout := w.stdout ++ [written rt (record rt l "DEBUG" m)] }
        else { DEBUG := false, stdout := w.stdout }) ∧
    l.Info rt stk m w
      = { DEBUG := w.DEBUG, stdout := w.stdout ++ [written rt (record rt l "INFO" m)] } ∧
    l.Error rt stk m w
      = { DEBUG := w.DEBUG,
          stdout := w.stdout ++ [written rt
            { Level := "ERROR", EventTime := rt.now, Message := m,
              Trace := stack rt
                (ownFrame rt "(*Logger).log" 134 :: ownFrame rt "Logger.Error" 171 :: stk),
              Tags := l.tags }] } ∧
    (∀ (msg : message) (b : String), rt.Marshal msg = Except.ok b → written rt msg = b ++ "\n") := by
  have hD : ∀ w2 : World, l.Debug rt stk m w2 =
      if w2.DEBUG then
        { DEBUG := true, stdout := w2.stdout ++ [written rt (record rt l "DEBUG" m)] }
      else w2 := by
    intro w2
    unfold Logger.Debug
    cases hd : w2.DEBUG with
    | false => simp
    | true =>
      simp only [Bool.not_true, Bool.false_eq_true, if_false, if_true]
      rw [log_eq rt _ l "DEBUG" m w2 (by decide), hd]
  refine ⟨hD w, fun b => ⟨rfl, rfl, ?_⟩, ?_, ?_, ?_⟩
  · rw [hD]
    cases b <;> rfl
  · unfold Logger.Info
    rw [log_eq rt _ l "INFO" m w (by decide)]
  · exact log_ERROR_eq rt _ l m w
  · intro msg b hb
    simp [written, hb]

/-- C10 on a host whose serialization succeeds: with the flag true `Debug`
writes the one line of its `DEBUG` record, with the flag false it writes
nothing, and `SetDebug(true)` after a false flag makes the next `Debug` write. -/
theorem C10_debug_flag_witness :
    plainRuntime.Marshal (record plainRuntime New "DEBUG" "hello") = Except.ok "DEBUG hello" ∧
    New.Debug plainRuntime [] "hello" { DEBUG := true, stdout := [] }
      = { DEBUG := true, stdout := ["DEBUG hello\n"] } ∧
    New.Debug plainRuntime [] "hello" { DEBUG := false, stdout := [] }
      = { DEBUG := false, stdout := [] } ∧
    New.Debug plainRuntime [] "hello" (SetDebug true { DEBUG := false, stdout := [] })
      = { DEBUG := true, stdout := ["DEBUG hello\n"] } :=
  have hC := C10_debug_flag plainRuntime [] New "hello" { DEBUG := true, stdout := [] }
  have hF := C10_debug_flag plainRuntime [] New "hello" { DEBUG := false, stdout := [] }
  have hm : plainRuntime.Marshal (record plainRuntime New "DEBUG" "hello")
      = Except.ok "DEBUG hello" := rfl
  have hw := hC.2.2.2.2 (record plainRuntime New "DEBUG" "hello") "DEBUG hello" hm
  ⟨hm, by rw [hC.1, hw]; rfl, by rw [hF.1]; rfl, by rw [(hF.2.1 true).2.2, hw]; rfl⟩

/-- C11, refuted as stated: when `Error` is called by the function `main.index`
the loop of `stack` leaves at its first frame, the trace is the empty string
and the record has no `trace` member. -/
theorem C11_empty_trace_from_index :
    stack plainRuntime
      (ownFrame plainRuntime "(*Logger).log" 134 :: ownFrame plainRuntime "Logger.Error" 171
        :: indexStack) = "" ∧
    New.Error plainRuntime indexStack "broken" { DEBUG := false, stdout := [] }
      = { DEBUG := false,
          stdout := [written plainRuntime
            { Level := "ERROR", EventTime := plainRuntime.now, Message := "broken", Trace := "",
              Tags := New.tags }] } ∧
    (jsonMembers
      { Level := "ERROR", EventTime := plainRuntime.now, Message := "broken", Trace := "",
        Tags := New.tags }).lookup "trace" = none := by
  refine ⟨by decide, ?_, by decide⟩
  unfold Logger.Error
  rw [log_ERROR_eq]
  rfl

/-- C11, amended: when the frame that calls `Error` is neither the function
`main.index` nor in a file whose path contains `asm_amd64.s`, the record that
`Error` writes has level `ERROR` and a trace that is not the empty string, and
its JSON object has the member `trace` with that string. -/
theorem C11_trace_nonempty (rt : Runtime) (stk : List Frame) (l : Logger) (m : String)
    (w : World) (hcaller : ∀ f, stk.head? = some f → stopFrame f = false) :
    l.Error rt stk m w
      = { DEBUG := w.DEBUG,
          stdout := w.stdout ++
            [written rt (errorRecord rt (ownFrame rt "Logger.Error" 171 :: stk) l m)] } ∧
    (errorRecord rt (ownFrame rt "Logger.Error" 171 :: stk) l m).Level = "ERROR" ∧
    (errorRecord rt (ownFrame rt "Logger.Error" 171 :: stk) l m).Trace ≠ "" ∧
    (jsonMembers (errorRecord rt (ownFrame rt "Logger.Error" 171 :: stk) l m)).lookup "trace"
      = some (JsonValue.str (errorRecord rt (ownFrame rt "Logger.Error" 171 :: stk) l m).Trace) := by
  have hne : (errorRecord rt (ownFrame rt "Logger.Error" 171 :: stk) l m).Trace ≠ "" := by
    show stack rt (ownFrame rt "(*Logger).log" 134 :: ownFrame rt "Logger.Error" 171 :: stk) ≠ ""
    rw [stack_eq_captured]
    show ", ".intercalate (stackNames (stk.take 100)) ≠ ""
    cases stk with
    | nil => decide
    | cons f rest =>
      obtain ⟨names, hn⟩ := stackNames_cons_of_not_stop f (rest.take 99) (hcaller f rfl)
      have ht : (f :: rest).take 100 = f :: rest.take 99 := rfl
      rw [ht, hn]
      exact intercalate_cons_ne_empty _ _ _ (framePath_length_pos f)
  refine ⟨log_ERROR_errorRecord rt _ l m w, rfl, hne, ?_⟩
  simp [jsonMembers, List.lookup, hne]

/-- C11, amended, on `crash` of `example/main.go`: the caller `main.crash` is
not a terminating frame and the trace lists the three frames below the
assembly frame. -/
theorem C11_trace_nonempty_witness :
    (∀ f, crashStack.head? = some f → stopFrame f = false) ∧
    (errorRecord plainRuntime (ownFrame plainRuntime "Logger.Error" 171 :: crashStack)
      New "broken").Trace
      = "main.go:main.crash:30, main.go:main.stuff:25, main.go:main.main:16, proc.go:runtime.main:250" ∧
    (errorRecord plainRuntime (ownFrame plainRuntime "Logger.Error" 171 :: crashStack)
      New "broken").Trace ≠ "" :=
  have h : ∀ f, crashStack.head? = some f → stopFrame f = false := by
    intro f hf
    have hf2 : f = { Function := "main.crash", File := "/home/u/example/main.go", Line := 30 } :=
      (Option.some.inj hf).symm
    rw [hf2]
    decide
  ⟨h, by decide,
   (C11_trace_nonempty plainRuntime crashStack New "broken" { DEBUG := false, stdout := [] } h).2.2.1⟩

/-- C12: the records that `Info`, `Infof`, `Debug` and `Debugf` write have an
empty trace and their JSON object has no `trace` member; `log` captures a
trace at no level but `ERROR`. -/
theorem C12_no_trace_below_error (rt : Runtime) (stk : List Frame) (l : Logger) (m : String)
    (args : List Any) (w : World) :
    l.Info rt stk m w
      = { DEBUG := w.DEBUG, stdout := w.stdout ++ [written rt (record rt l "INFO" m)] } ∧
    l.Infof rt stk m args w
      = { DEBUG := w.DEBUG,
          stdout := w.stdout ++ [written rt (record rt l "INFO" (rt.Sprintf m args))] } ∧
    (l.Debug rt stk m w =
      if w.DEBUG then
        { DEBUG := w.DEBUG, stdout := w.stdout ++ [written rt (record rt l "DEBUG" m)] }
      else w) ∧
    (l.Debugf rt stk m args w =
      if w.DEBUG then
        { DEBUG := w.DEBUG,
          stdout := w.stdout ++ [written rt (record rt l "DEBUG" (rt.Sprintf m args))] }
      else w) ∧
    (∀ level text : String, (record rt l level text).Trace = "" ∧
      (jsonMembers (record rt l level text)).lookup "trace" = none) ∧
    (∀ (level text : String) (stk2 : List Frame), level ≠ "ERROR" →
      logRecord rt stk2 l level text = record rt l level text ∧
      (logRecord rt stk2 l level text).Trace = "") := by
  have hD : ∀ (stk2 : List Frame) (text : String), l.Debug rt stk2 text w =
      if w.DEBUG then
        { DEBUG := w.DEBUG, stdout := w.stdout ++ [written rt (record rt l "DEBUG" text)] }
      else w := by
    intro stk2 text
    unfold Logger.Debug
    cases hd : w.DEBUG with
    | false => simp
    | true =>
      simp only [Bool.not_true, Bool.false_eq_true, if_false, if_true]
      rw [log_eq rt _ l "DEBUG" text w (by decide), hd]
  refine ⟨?_, ?_, hD stk m, hD _ _, fun level text => ⟨rfl, lookup_trace_record rt l level text⟩,
    ?_⟩
  · exact log_eq rt _ l "INFO" m w (by decide)
  · exact log_eq rt _ l "INFO" _ w (by decide)
  · intro level text stk2 h
    have h1 : logRecord rt stk2 l level text = record rt l level text := by
      unfold logRecord
      rw [if_neg h]
    exact ⟨h1, by rw [h1]; rfl⟩

/-- C12 on `stuff` of `example/main.go`: the record of `Info("thing message")`
is built at level `INFO`, which is not `ERROR`, and carries no trace. -/
theorem C12_no_trace_below_error_witness :
    "INFO" ≠ "ERROR" ∧
    (logRecord plainRuntime crashStack (FromContext mainCtx) "INFO" "thing message").Trace = "" :=
  ⟨by decide,
   ((C12_no_trace_below_error plainRuntime crashStack (FromContext mainCtx) "thing message" []
      { DEBUG := false, stdout := [] }).2.2.2.2.2 "INFO" "thing message" crashStack
      (by decide)).2⟩

/-- C13: `Info` writes one record; it has level `INFO`, the message given and
the tag store of the logger as it is at the call, and its JSON object has the
member `tags` exactly when the store has an entry. -/
theorem C13_info_record (rt : Runtime) (stk : List Frame) (l : Logger) (m : String) (w : World) :
    l.Info rt stk m w
      = { DEBUG := w.DEBUG, stdout := w.stdout ++ [written rt (record rt l "INFO" m)] } ∧
    (record rt l "INFO" m).Level = "INFO" ∧
    (record rt l "INFO" m).Message = m ∧
    (record rt l "INFO" m).Tags = l.tags ∧
    (jsonMembers (record rt l "INFO" m)).lookup "level" = some (JsonValue.str "INFO") ∧
    (jsonMembers (record rt l "INFO" m)).lookup "message" = some (JsonValue.str m) ∧
    ((jsonMembers (record rt l "INFO" m)).lookup "tags" = none ↔ l.tags.keys = []) ∧
    (l.tags.keys ≠ [] →
      (jsonMembers (record rt l "INFO" m)).lookup "tags" = some (JsonValue.tags l.tags)) := by
  have hk : l.tags.keys = [] ↔ l.tags.entries = [] := by
    simp [AList.keys, List.keys]
  refine ⟨log_eq rt _ l "INFO" m w (by decide), rfl, rfl, rfl, ?_, ?_, ?_, ?_⟩
  · simp [jsonMembers, record, List.lookup]
  · simp [jsonMembers, record, List.lookup]
  · rw [hk]
    by_cases h : l.tags.entries = [] <;> simp [jsonMembers, record, List.lookup, h]
  · intro hne
    have h : ¬ l.tags.entries = [] := fun e => hne (hk.2 e)
    simp [jsonMembers, record, List.lookup, h]

/-- C13 on `main` of `example/main.go`: the record of `Info("first message")`
of the fresh logger has no `tags` member, and after
`With(ctx, "user_id", "123")` the record of `Info("second message")` has the
member `tags` whose only entry binds `user_id` to `"123"`. -/
theorem C13_info_record_witness :
    (jsonMembers (record plainRuntime New "INFO" "first message")).lookup "tags" = none ∧
    (New.With RangeOrder.stored Context.background "user_id" (Any.string "123")).1.tags.keys
      ≠ [] ∧
    (jsonMembers (record plainRuntime
        (New.With RangeOrder.stored Context.background "user_id" (Any.string "123")).1
        "INFO" "second message")).lookup "tags"
      = some (JsonValue.tags
          (New.With RangeOrder.stored Context.background "user_id" (Any.string "123")).1.tags) ∧
    (New.With RangeOrder.stored Context.background "user_id" (Any.string "123")).1.tags.entries
      = [⟨"user_id", Any.string "123"⟩] :=
  have hne : (New.With RangeOrder.stored Context.background "user_id"
      (Any.string "123")).1.tags.keys ≠ [] := by decide
  ⟨(C13_info_record plainRuntime [] New "first message"
      { DEBUG := false, stdout := [] }).2.2.2.2.2.2.1.2 rfl,
   hne,
   (C13_info_record plainRuntime []
      (New.With RangeOrder.stored Context.background "user_id" (Any.string "123")).1
      "second message" { DEBUG := false, stdout := [] }).2.2.2.2.2.2.2 hne,
   rfl⟩

/-- C14, the code at the failing input: when `json.Marshal` fails on the record,
`log` makes one write, the fallback text that carries the error, and does not
write the record; but the text is written without a newline, unlike the
record of the other branch, so it is no line of its own: the record that the
next call writes stands on the same line of the output. -/
theorem C14_fallback_without_newline :
    (∀ (rt : Runtime) (stk : List Frame) (l : Logger) (level text : String) (w : World)
      (err : String), rt.Marshal (logRecord rt stk l level text) = Except.error err →
      l.log rt stk level text w
        = { DEBUG := w.DEBUG,
            stdout := w.stdout ++ ["logger ERROR: cannot marshal payload: " ++ err] }) ∧
    (∀ (rt : Runtime) (stk : List Frame) (l : Logger) (level text : String) (w : World)
      (b : String), rt.Marshal (logRecord rt stk l level text) = Except.ok b →
      l.log rt stk level text w = { DEBUG := w.DEBUG, stdout := w.stdout ++ [b ++ "\n"] }) ∧
    New.Info failingRuntime crashStack "hello" { DEBUG := false, stdout := [] }
      = { DEBUG := false,
          stdout := ["logger ERROR: cannot marshal payload: json: unsupported type: chan int"] } ∧
    Char.ofNat 10 ∉
      ("logger ERROR: cannot marshal payload: json: unsupported type: chan int").data ∧
    String.join
      (New.Info plainRuntime crashStack "next"
        (New.Info failingRuntime crashStack "hello" { DEBUG := false, stdout := [] })).stdout
      = "logger ERROR: cannot marshal payload: json: unsupported type: chan intINFO next\n" := by
  refine ⟨?_, ?_, ?_, by decide, ?_⟩
  · intro rt stk l level text w err h
    rw [log_logRecord]
    simp [written, h]
  · intro rt stk l level text w b h
    rw [log_logRecord]
    simp [written, h]
  · rfl
  · rfl

/-- C15: two calls `FromContext(ctx)` return two different pointers to loggers
with the same store, the one that `ctx` determines; and after a `With` on the
first logger, with any context, key and value, a further `FromContext(ctx)`
returns that same store again while the first logger holds the new key. -/
theorem C15_FromContext_idempotent (r : RangeOrder) (h : Heap) (ctx ctxW : Context) (k : String)
    (v : Any) :
    (h.FromContext ctx).2 ≠ ((h.FromContext ctx).1.FromContext ctx).2 ∧
    ((h.FromContext ctx).1.FromContext ctx).1[(h.FromContext ctx).2]?
      = some (FromContext ctx) ∧
    ((h.FromContext ctx).1.FromContext ctx).1[((h.FromContext ctx).1.FromContext ctx).2]?
      = some (FromContext ctx) ∧
    ∃ h2 ctx2,
      Heap.With r (h.FromContext ctx).1 (h.FromContext ctx).2 ctxW k v = some (h2, ctx2) ∧
      h2[(h.FromContext ctx).2]? = some { tags := (FromContext ctx).tags.insert k v } ∧
      (h2.FromContext ctx).2 ≠ (h.FromContext ctx).2 ∧
      (h2.FromContext ctx).1[(h2.FromContext ctx).2]? = some (FromContext ctx) ∧
      (h2.FromContext ctx).1[(h.FromContext ctx).2]?
        = some { tags := (FromContext ctx).tags.insert k v } := by
  have hlen : (h ++ [FromContext ctx]).length = h.length + 1 := by simp
  have hp : (h ++ [FromContext ctx])[h.length]? = some (FromContext ctx) :=
    List.getElem?_concat_length _ _
  have hplt : h.length < (h ++ [FromContext ctx]).length := by omega
  have hset : ((h ++ [FromContext ctx]).set h.length ((FromContext ctx).With r ctxW k v).1)[
      h.length]? = some { tags := (FromContext ctx).tags.insert k v } := by
    rw [List.getElem?_set_self hplt]
    rfl
  refine ⟨?_, ?_, ?_, (h ++ [FromContext ctx]).set h.length ((FromContext ctx).With r ctxW k v).1,
    ((FromContext ctx).With r ctxW k v).2, ?_, hset, ?_, ?_, ?_⟩
  · show h.length ≠ (h ++ [FromContext ctx]).length
    omega
  · show ((h ++ [FromContext ctx]) ++ [FromContext ctx])[h.length]? = _
    rw [List.getElem?_append_left hplt, hp]
  · exact List.getElem?_concat_length _ _
  · show Heap.With r (h ++ [FromContext ctx]) h.length ctxW k v = _
    unfold Heap.With
    rw [hp]
  · show ((h ++ [FromContext ctx]).set h.length ((FromContext ctx).With r ctxW k v).1).length
      ≠ h.length
    rw [List.length_set]
    omega
  · exact List.getElem?_concat_length _ _
  · show (((h ++ [FromContext ctx]).set h.length ((FromContext ctx).With r ctxW k v).1)
      ++ [FromContext ctx])[h.length]? = _
    rw [List.getElem?_append_left (by rw [List.length_set]; omega), hset]

/-- C16: on a chain from a context without tags in which every `With` is made
by a logger just reconstructed from the context the call receives, or by the
logger of the call before it continuing from the context that call returned,
the logger reconstructed at every node binds exactly the keys attached on the
path to that node, each to its most recently attached value. -/
theorem C16_usage_pattern (ctx0 : Context) (steps : List Attach)
    (h0 : (FromContext ctx0).tags.keys = []) (hu : Reconstructing ctx0 steps) :
    PathTags ctx0 steps := by
  have hs := inStep_of_reconstructing ctx0 steps hu
  intro j hj
  refine ⟨fun t => ?_, fun t => lookup_chain_take ctx0 steps h0 hs j hj t⟩
  rw [mem_keys_iff_isSome, lookup_chain_take ctx0 steps h0 hs j hj t, lastAttach_isSome]

/-- C16 on a chain of three calls: a fresh logger, the same logger continuing,
and a logger reconstructed by the callee; at the last node the three keys are
bound. -/
theorem C16_usage_pattern_witness :
    (FromContext Context.background).tags.keys = [] ∧
    Reconstructing Context.background usageChain ∧
    PathTags Context.background usageChain ∧
    (FromContext (chain Context.background usageChain)).tags.lookup "user_id"
      = some (Any.string "123") :=
  have h0 : (FromContext Context.background).tags.keys = [] := by decide
  have hu : Reconstructing Context.background usageChain := by
    intro i hi
    match i, hi with
    | 0, _ => exact Or.inl rfl
    | 1, _ => exact Or.inr ⟨0, by decide, rfl, rfl⟩
    | 2, _ => exact Or.inl rfl
  ⟨h0, hu, C16_usage_pattern Context.background usageChain h0 hu, by decide⟩

/-- C20: a tag named `"tags"` goes through `With` and `FromContext` like any
other tag: the reconstructed store is the store of `l` with `"tags"` bound to
`v`; the reserved key still holds the list of tag names, not `v`; and the
string key `"tags"`, the tag key `"tags"` and the reserved key are three
different context keys. -/
theorem C20_tag_named_tags (r : RangeOrder) (l : Logger) (ctx : Context) (v : Any) :
    sameTags (FromContext (l.With r ctx "tags" v).2) (l.With r ctx "tags" v).1 ∧
    (∀ t : tag, (FromContext (l.With r ctx "tags" v).2).tags.lookup t
        = if "tags" = t then some v else l.tags.lookup t) ∧
    (l.With r ctx "tags" v).2.Value tagsKey
      = Any.tags ((r.1 (l.tags.insert "tags" v)).map Sigma.fst) ∧
    (∀ t : tag, t ∈ (r.1 (l.tags.insert "tags" v)).map Sigma.fst ↔ t = "tags" ∨ t ∈ l.tags.keys) ∧
    (l.With r ctx "tags" v).2.Value (Key.str "tags") = v ∧
    (l.With r ctx "tags" v).2.Value (Key.tag "tags") = v ∧
    Key.str "tags" ≠ tagsKey ∧ Key.tag "tags" ≠ tagsKey ∧ Key.str "tags" ≠ Key.tag "tags" := by
  refine ⟨fun t => ?_, fun t => ?_, Value_With_tagsKey r l ctx "tags" v, fun t => ?_, ?_, ?_,
    by simp [tagsKey], by simp [tagsKey], by simp⟩
  · rw [lookup_FromContext_With, With_fst]
  · rw [lookup_FromContext_With, lookup_insert_eq]
  · rw [range_keys, ← AList.mem_keys, AList.mem_insert, AList.mem_keys]
  · rw [With_snd, Value_WithValue, if_neg (by simp [tagsKey]),
      Value_pushAll_other _ _ _ (by simp), Value_WithValue, if_pos rfl]
  · rw [Value_With_tag, AList.lookup_insert]
    rfl

/-- C17: over a non-empty sequence of captured frames the loop of `stack`
yields, in stack order, the entry `file:function:line` of every frame before
the first frame whose function is `main.index` or whose file contains
`asm_amd64.s`, and of every frame when there is none; the terminating frame
and the frames after it yield nothing. `stack` joins the entries of the
captured frames with a comma and a blank. -/
theorem C17_stack_entries (frames : List Frame) (hne : frames ≠ []) :
    stackNames frames = (frames.takeWhile (fun f => !stopFrame f)).map framePath ∧
    ((∀ f, f ∈ frames → stopFrame f = false) → stackNames frames = frames.map framePath) ∧
    (∀ (pre : List Frame) (t : Frame) (post : List Frame), frames = pre ++ t :: post →
      (∀ f, f ∈ pre → stopFrame f = false) → stopFrame t = true →
      stackNames frames = pre.map framePath) ∧
    (∀ f : Frame, stopFrame f = true ↔
      (f.Function = "main.index" ∨ List.IsInfix "asm_amd64.s".data f.File.data)) ∧
    (∀ f : Frame, framePath f =
      stripPathPrefix f.File ++ ":" ++ stripPathPrefix f.Function ++ ":" ++ toString f.Line) ∧
    (∀ (rt : Runtime) (stk : List Frame),
      stack rt stk = ", ".intercalate (stackNames ((stk.drop 2).take 100))) := by
  have hmain := stackNames_eq_takeWhile frames hne
  refine ⟨hmain, ?_, ?_, ?_, fun f => rfl, fun rt stk => rfl⟩
  · intro hall
    rw [hmain, takeWhile_all _ frames (fun f hf => by simp [hall f hf])]
  · intro pre t post hfr hpre ht
    rw [hmain, hfr, takeWhile_append_stop _ pre t post (fun f hf => by simp [hpre f hf])
      (by simp [ht])]
  · intro f
    simp [stopFrame, Contains]

/-- C17 on the frames of `crash` in `example/main.go`: the four frames before
the assembly frame yield their entries and the assembly frame yields none. -/
theorem C17_stack_entries_witness :
    crashStack ≠ [] ∧
    stackNames crashStack
      = ["main.go:main.crash:30", "main.go:main.stuff:25", "main.go:main.main:16",
         "proc.go:runtime.main:250"] :=
  ⟨by decide, ((C17_stack_entries crashStack (by decide)).1).trans (by decide)⟩

/-- C18, the code at the failing input: `Error` hands to the loop of `stack` the
frames of its caller, but `Errorf` hands it its own frame first, because the
fixed skip of four frames is one short for the longer call path; on `crash`
of `example/main.go` calling `Errorf`, the trace starts with the frame of
`Logger.Errorf` in `logger.go`. -/
theorem C18_Errorf_frame_in_trace :
    (∀ (rt : Runtime) (stk : List Frame) (l : Logger) (m : String),
      (errorRecord rt (ownFrame rt "Logger.Error" 171 :: stk) l m).Trace
        = ", ".intercalate (stackNames (stk.take 100))) ∧
    (∀ (rt : Runtime) (stk : List Frame) (l : Logger) (m : String) (args : List Any) (w : World),
      l.Errorf rt stk m args w
        = { DEBUG := w.DEBUG,
            stdout := w.stdout ++ [written rt
              { Level := "ERROR", EventTime := rt.now, Message := rt.Sprintf m args,
                Trace := ", ".intercalate
                  (stackNames ((ownFrame rt "Logger.Errorf" 176 :: stk).take 100)),
                Tags := l.tags }] }) ∧
    ", ".intercalate (stackNames ((ownFrame plainRuntime "Logger.Errorf" 176 :: crashStack).take 100))
      = "logger.go:logger.Logger.Errorf:176, main.go:main.crash:30, main.go:main.stuff:25, main.go:main.main:16, proc.go:runtime.main:250" := by
  refine ⟨fun rt stk l m => rfl, ?_, by decide⟩
  intro rt stk l m args w
  unfold Logger.Errorf Logger.Error
  rw [log_ERROR_eq]
  rfl

/-- C19, the code at the failing input: the test `i > 0` leaves a string whose
only separator is its first character as it is, so for a source file at the
root of the file system `stripPathPrefix("/main.go")` is `"/main.go"` and
contains the separator. A string without separator is
returned as it is, and a string whose last separator is not its first
character is cut to the part after that separator. -/
theorem C19_leading_slash_kept :
    stripPathPrefix "/main.go" = "/main.go" ∧
    '/' ∈ ( stripPathPrefix "/main.go").data ∧
    (∀ rest : List Char, '/' ∉ rest →
      stripPathPrefix (String.mk ('/' :: rest)) = String.mk ('/' :: rest)) ∧
    (∀ s : String, '/' ∉ s.data → stripPathPrefix s = s) ∧
    (∀ a b : List Char, a ≠ [] → '/' ∉ b →
      stripPathPrefix (String.mk (a ++ '/' :: b)) = String.mk b) := by
  refine ⟨by decide, by decide, ?_, ?_, ?_⟩
  · intro rest h
    have hi : LastIndex (String.mk ('/' :: rest)) '/' = 0 := by
      have := LastIndexFrom_last '/' [] rest 0 (-1) h
      simpa [LastIndex] using this
    simp [stripPathPrefix, hi]
  · intro s h
    have hi : LastIndex s '/' = -1 := LastIndexFrom_absent '/' s.data 0 (-1) h
    simp [stripPathPrefix, hi]
  · intro a b ha h
    have hi : LastIndex (String.mk (a ++ '/' :: b)) '/' = (a.length : Int) := by
      have := LastIndexFrom_last '/' a b 0 (-1) h
      simpa [LastIndex] using this
    have hpos : 0 < a.length := List.length_pos.2 ha
    have hgt : (a.length : Int) > 0 := by omega
    have hdrop : (a ++ '/' :: b).drop (a.length + 1) = b := by
      have e : a ++ '/' :: b = (a ++ ['/']) ++ b := by simp
      rw [e]
      exact List.drop_left' (by simp)
    simp only [stripPathPrefix, hi, if_pos hgt, Int.toNat_ofNat, hdrop]

end logger
